import Mathlib

/-!
# Verification of the rope text buffer (`src/rope.h`)

Shallow embedding of the AVL-balanced rope from `src/rope.h`.

Modelling conventions:
* A `RopeNode*` is an `RNode`: the constructor `null` is the null pointer,
  and a non-null node is either a leaf holding its byte run
  (`data[0..length)`, kept as a `List Nat`) or an internal node holding the
  two child pointers.  The C++ struct stores the leaf payload and the child
  pointers in one record discriminated by `is_leaf`; an inductive with a
  constructor per shape is the same data.
* The cached fields `height` and `weight` are not stored.  Every code path
  that changes a node's children calls `rope_node_update` on it (directly, or
  via `rope_node_balance` / the rotations / `rope_node_create_internal`)
  before the cache is next read, and `rope_node_update` recomputes `weight`
  by the full recursion `rope_node_get_weight` (which itself never reads a
  cache) and `height` from the children's caches.  By induction the caches
  always equal the structural values, so the model recomputes them:
  `rope_node_get_height` and `rope_node_get_weight` are the structural
  recursions, and the cached `node->weight` of an internal node (byte count
  of its left subtree) is read as `rope_node_get_weight left`.
* A C `(const char* str, size_t len)` pair is a single `List Nat` of exactly
  the `len` bytes; pointer arithmetic `str + mid` becomes `List.drop mid`.
* Byte buffers written by `rope_node_copy` are modelled by returning the list
  of bytes written; the C++ return value (count of bytes copied) is its
  length.
-/

/-- `ROPE_NODE_CAPACITY` from `rope.h`. -/
def ROPE_NODE_CAPACITY : Nat := 512

/-- A rope tree pointer: null, a leaf with its byte run, or an internal node
with two (possibly null) children, as in `struct RopeNode`. -/
inductive RNode where
  | null : RNode
  | leaf (data : List Nat) : RNode
  | node (left right : RNode) : RNode
deriving Repr, DecidableEq

/-- `struct Rope`: root pointer and cached total length. -/
structure Rope where
  root : RNode
  total_length : Nat
deriving Repr, DecidableEq

/-- `rope_node_create_leaf(str, len)`: stores `min(len, ROPE_NODE_CAPACITY)`
bytes of `str`.  The `(str, len)` pair is the list `str`, so the stored run is
`str.take ROPE_NODE_CAPACITY`. -/
def rope_node_create_leaf (str : List Nat) : RNode :=
  .leaf (str.take ROPE_NODE_CAPACITY)

/-- `rope_node_create_internal(left, right)` (its `rope_node_update` call only
refreshes cached metadata, which the model recomputes). -/
def rope_node_create_internal (left right : RNode) : RNode :=
  .node left right

/-- `rope_node_get_height`: 0 for null; a leaf (null children) has height 1;
an internal node caches `1 + max` of the children's heights. -/
def rope_node_get_height : RNode → Nat
  | .null => 0
  | .leaf _ => 1
  | .node l r => 1 + max (rope_node_get_height l) (rope_node_get_height r)

/-- `rope_node_get_weight`: total byte count of the subtree (the C++ function
recurses over the whole subtree and never reads a cache). -/
def rope_node_get_weight : RNode → Nat
  | .null => 0
  | .leaf d => d.length
  | .node l r => rope_node_get_weight l + rope_node_get_weight r

/-- `rope_node_balance_factor`: `height(left) - height(right)`, 0 for null
(a leaf has null children, hence factor 0). -/
def rope_node_balance_factor : RNode → Int
  | .null => 0
  | .leaf _ => 0
  | .node l r => (rope_node_get_height l : Int) - (rope_node_get_height r : Int)

/-- `rope_node_rotate_right(y)`: `x = y->left`, `T2 = x->right`; reparent so
`x` is the root with right child `y`.  The C++ dereferences `y->left` and
reads its children, so it is only called (from `rope_node_balance`) when
`y->left` is an internal node; on any other shape the model returns the input
unchanged. -/
def rope_node_rotate_right : RNode → RNode
  | .node (.node xl xr) yr => .node xl (.node xr yr)
  | n => n

/-- `rope_node_rotate_left(x)`: mirror of `rope_node_rotate_right`. -/
def rope_node_rotate_left : RNode → RNode
  | .node xl (.node yl yr) => .node (.node xl yl) yr
  | n => n

/-- `rope_node_balance`: rebalance one node by AVL rotations (its
`rope_node_update` call only refreshes caches, recomputed in the model). -/
def rope_node_balance (n : RNode) : RNode :=
  match n with
  | .null => .null
  | nd =>
    let balance := rope_node_balance_factor nd
    if 1 < balance then
      match nd with
      | .node l r =>
        let l' := if rope_node_balance_factor l < 0
                  then rope_node_rotate_left l else l
        rope_node_rotate_right (.node l' r)
      | other => other
    else if balance < -1 then
      match nd with
      | .node l r =>
        let r' := if 0 < rope_node_balance_factor r
                  then rope_node_rotate_right r else r
        rope_node_rotate_left (.node l r')
      | other => other
    else nd

/-- The capacity-aligned split point used by the null-node insert branch:
`mid = len / 2` rounded down to a `ROPE_NODE_CAPACITY` boundary, or one full
capacity when that rounding gives zero. -/
def rope_node_split_mid (len : Nat) : Nat :=
  let mid0 := len / 2
  let mid1 := mid0 / ROPE_NODE_CAPACITY * ROPE_NODE_CAPACITY
  if mid1 = 0 then ROPE_NODE_CAPACITY else mid1

/-- `rope_node_insert` on a null node, i.e. the `if (!node)` branch: a string
that fits becomes one leaf, a longer one is split at a capacity-aligned
midpoint into a balanced tree of leaves.  The C++ writes this branch as
recursive calls `rope_node_insert(nullptr, 0, …)`; since the node argument is
null again, those calls are exactly this function. -/
def rope_node_insert_empty (str : List Nat) : RNode :=
  if str.length ≤ ROPE_NODE_CAPACITY then
    rope_node_create_leaf str
  else
    let mid := rope_node_split_mid str.length
    rope_node_create_internal
      (rope_node_insert_empty (str.take mid))
      (rope_node_insert_empty (str.drop mid))
termination_by str.length
decreasing_by
  all_goals
    simp only [List.length_take, List.length_drop, rope_node_split_mid,
      ROPE_NODE_CAPACITY] at *
    split <;> omega

/-- `rope_node_insert(node, pos, str, len)`.  In-place leaf insertion is the
`memmove`/`memcpy` pair splicing `str` in at `pos`; the overflow branch splits
the leaf at `pos` and wraps the new bytes as a third leaf; internal nodes
route by the cached weight of the left subtree. -/
def rope_node_insert (node : RNode) (pos : Nat) (str : List Nat) : RNode :=
  match node with
  | .null => rope_node_insert_empty str
  | .leaf data =>
    if data.length + str.length ≤ ROPE_NODE_CAPACITY then
      .leaf (data.take pos ++ str ++ data.drop pos)
    else
      let left_node := rope_node_create_leaf (data.take pos)
      let right_node := rope_node_create_leaf (data.drop pos)
      let new_text_node := rope_node_create_leaf str
      let left_tree := rope_node_create_internal left_node new_text_node
      let result := rope_node_create_internal left_tree right_node
      rope_node_balance result
  | .node l r =>
    if pos ≤ rope_node_get_weight l then
      rope_node_balance (.node (rope_node_insert l pos str) r)
    else
      rope_node_balance
        (.node l (rope_node_insert r (pos - rope_node_get_weight l) str))

/-- The null-child collapse at the end of `rope_node_delete` (lines 276–289):
an internal node with two null children is removed, with one null child it is
replaced by the surviving child, otherwise it is rebalanced. -/
def rope_node_collapse : RNode → RNode → RNode
  | .null, .null => .null
  | .null, rr => rr
  | ll, .null => ll
  | ll, rr => rope_node_balance (.node ll rr)

/-- `rope_node_delete(node, pos, len)`.  A leaf drops
`min(len, length - pos)` bytes at `pos` and is pruned if emptied; an internal
node clips the deletion to the left subtree and continues in the right one,
then collapses null children and rebalances. -/
def rope_node_delete (node : RNode) (pos len : Nat) : RNode :=
  match node with
  | .null => .null
  | n =>
    if len = 0 then n
    else
      match n with
      | .leaf data =>
        if data.length ≤ pos then .leaf data
        else
          let actual_len := min len (data.length - pos)
          let newdata := data.take pos ++ data.drop (pos + actual_len)
          if newdata.length = 0 then .null else .leaf newdata
      | .node l r =>
        let left_weight := rope_node_get_weight l
        if pos < left_weight then
          let left_delete_len := min len (left_weight - pos)
          let l2 := rope_node_delete l pos left_delete_len
          let r2 := if left_delete_len < len
                    then rope_node_delete r 0 (len - left_delete_len)
                    else r
          rope_node_collapse l2 r2
        else
          rope_node_collapse l (rope_node_delete r (pos - left_weight) len)
      | other => other

/-- `rope_node_copy(node, pos, buffer, len)`: the list of bytes written into
`buffer` (the C++ return value is its length). -/
def rope_node_copy (node : RNode) (pos len : Nat) : List Nat :=
  match node with
  | .null => []
  | n =>
    if len = 0 then []
    else
      match n with
      | .leaf data =>
        if data.length ≤ pos then []
        else (data.drop pos).take (min len (data.length - pos))
      | .node l r =>
        let left_weight := rope_node_get_weight l
        if pos < left_weight then
          let copied := rope_node_copy l pos len
          if copied.length < len then
            copied ++ rope_node_copy r 0 (len - copied.length)
          else copied
        else
          rope_node_copy r (pos - left_weight) len
      | _ => []

/-- `rope_init`. -/
def rope_init : Rope := { root := .null, total_length := 0 }

/-- `rope_length`. -/
def rope_length (rope : Rope) : Nat := rope.total_length

/-- `rope_insert(rope, pos, str, len)`. -/
def rope_insert (rope : Rope) (pos : Nat) (str : List Nat) : Rope :=
  if str.length = 0 then rope
  else
    { root := rope_node_insert rope.root pos str
      total_length := rope.total_length + str.length }

/-- `rope_from_string(rope, str)`.  The input is the content of the C string
(its bytes before the terminating NUL, whose count is `strlen`). -/
def rope_from_string (str : List Nat) : Rope :=
  if str.length = 0 then { root := .null, total_length := 0 }
  else if str.length ≤ ROPE_NODE_CAPACITY then
    { root := rope_node_create_leaf str, total_length := str.length }
  else
    rope_insert { root := .null, total_length := 0 } 0 str

/-- `rope_delete(rope, pos, len)`. -/
def rope_delete (rope : Rope) (pos len : Nat) : Rope :=
  if len = 0 then rope
  else
    { root := rope_node_delete rope.root pos len
      total_length :=
        rope.total_length -
          min len (rope.total_length - min pos rope.total_length) }

/-- `rope_copy(rope, pos, buffer, len)`. -/
def rope_copy (rope : Rope) (pos len : Nat) : List Nat :=
  match rope.root with
  | .null => []
  | _ => rope_node_copy rope.root pos len

/-- `rope_char_at(rope, pos)`: `c` starts as `'\0'` and `rope_copy` writes at
most one byte over it. -/
def rope_char_at (rope : Rope) (pos : Nat) : Nat :=
  match rope_copy rope pos 1 with
  | [] => 0
  | c :: _ => c

/-- `rope_to_string`: allocates `total_length + 1` bytes and copies the rope
into it.  The model keeps the bytes actually written by `rope_copy`; bytes of
the C++ buffer beyond the copied count are uninitialized memory (when
`total_length` matches the tree content the copy fills the buffer exactly). -/
def rope_to_string (rope : Rope) : List Nat :=
  rope_copy rope 0 rope.total_length

/-- `rope_free`. -/
def rope_free (_rope : Rope) : Rope :=
  { root := .null, total_length := 0 }

/-! ## Abstraction function and invariant predicates -/

/-- The document content of a subtree: the concatenation of its leaf byte
runs in order (an in-order traversal, which is what `rope_node_copy` reads). -/
def rope_node_flatten : RNode → List Nat
  | .null => []
  | .leaf d => d
  | .node l r => rope_node_flatten l ++ rope_node_flatten r

/-- The AVL balance invariant: at every internal node,
`|height(left) - height(right)| ≤ 1` (stated with truncated `Nat`
subtraction on both sides). -/
def rope_node_avl_ok : RNode → Bool
  | .null => true
  | .leaf _ => true
  | .node l r =>
    decide (rope_node_get_height l - rope_node_get_height r ≤ 1) &&
    decide (rope_node_get_height r - rope_node_get_height l ≤ 1) &&
    rope_node_avl_ok l && rope_node_avl_ok r

/-- True when no leaf of the subtree has length zero. -/
def rope_node_no_empty_leaf : RNode → Bool
  | .null => true
  | .leaf d => !d.isEmpty
  | .node l r => rope_node_no_empty_leaf l && rope_node_no_empty_leaf r

/-- Whether a node pointer is null. -/
def RNode.isNull : RNode → Bool
  | .null => true
  | _ => false

/-- True when no internal node of the subtree has a null child. -/
def rope_node_no_null_child : RNode → Bool
  | .null => true
  | .leaf _ => true
  | .node l r =>
    !l.isNull && !r.isNull && rope_node_no_null_child l && rope_node_no_null_child r

/-- Buffer states reachable from the public interface: `rope_init`, then any
sequence of `rope_insert` with `pos ∈ [0, length]`, `rope_delete` with
`pos ∈ [0, length)`, `rope_from_string`, and `rope_free`. -/
inductive Reachable : Rope → Prop where
  | init : Reachable rope_init
  | insert (r : Rope) (pos : Nat) (str : List Nat) :
      Reachable r → pos ≤ rope_length r → Reachable (rope_insert r pos str)
  | delete (r : Rope) (pos len : Nat) :
      Reachable r → pos < rope_length r → Reachable (rope_delete r pos len)
  | from_string (str : List Nat) : Reachable (rope_from_string str)
  | free (r : Rope) : Reachable r → Reachable (rope_free r)

/-- Modelled from the spec (§4.2 `route(pos)`): identical to
`rope_node_delete` except that the internal-node routing comparison is the
spec's `pos ≤ weight` instead of the code's `pos < weight`. -/
def rope_node_delete_route (node : RNode) (pos len : Nat) : RNode :=
  match node with
  | .null => .null
  | n =>
    if len = 0 then n
    else
      match n with
      | .leaf data =>
        if data.length ≤ pos then .leaf data
        else
          let actual_len := min len (data.length - pos)
          let newdata := data.take pos ++ data.drop (pos + actual_len)
          if newdata.length = 0 then .null else .leaf newdata
      | .node l r =>
        let left_weight := rope_node_get_weight l
        if pos ≤ left_weight then
          let left_delete_len := min len (left_weight - pos)
          let l2 := rope_node_delete_route l pos left_delete_len
          let r2 := if left_delete_len < len
                    then rope_node_delete_route r 0 (len - left_delete_len)
                    else r
          rope_node_collapse l2 r2
        else
          rope_node_collapse l (rope_node_delete_route r (pos - left_weight) len)
      | other => other

/-- Modelled from the spec (§4.2 `route(pos)`): identical to `rope_node_copy`
except that the internal-node routing comparison is the spec's
`pos ≤ weight` instead of the code's `pos < weight`. -/
def rope_node_copy_route (node : RNode) (pos len : Nat) : List Nat :=
  match node with
  | .null => []
  | n =>
    if len = 0 then []
    else
      match n with
      | .leaf data =>
        if data.length ≤ pos then []
        else (data.drop pos).take (min len (data.length - pos))
      | .node l r =>
        let left_weight := rope_node_get_weight l
        if pos ≤ left_weight then
          let copied := rope_node_copy_route l pos len
          if copied.length < len then
            copied ++ rope_node_copy_route r 0 (len - copied.length)
          else copied
        else
          rope_node_copy_route r (pos - left_weight) len
      | _ => []

/-- `k` successive `rope_insert` calls appending 512 bytes at the end of the
buffer (each one a public insert at `pos = length`). -/
def rope_append_blocks : Nat → Rope → Rope
  | 0, r => r
  | k + 1, r => rope_append_blocks k (rope_insert r (rope_length r) (List.replicate 512 0))

/-- An 8192-byte buffer built through the public interface only:
`rope_from_string` of one full leaf, then 15 appends of 512 bytes each. -/
def rope_c1_buffer : Rope :=
  rope_append_blocks 15 (rope_from_string (List.replicate 512 0))

/-! ## Content lemmas -/

/-- `rope_node_get_weight` is the length of the flattened content. -/
theorem rope_node_get_weight_eq (n : RNode) :
    rope_node_get_weight n = (rope_node_flatten n).length := by
  induction n with
  | null => rfl
  | leaf d => rfl
  | node l r ihl ihr =>
    simp [rope_node_get_weight, rope_node_flatten, ihl, ihr]

/-- Right rotation preserves the flattened content. -/
theorem rope_node_flatten_rotate_right (n : RNode) :
    rope_node_flatten (rope_node_rotate_right n) = rope_node_flatten n := by
  cases n with
  | null => rfl
  | leaf d => rfl
  | node l r =>
    cases l with
    | null => rfl
    | leaf d => rfl
    | node xl xr =>
      simp [rope_node_rotate_right, rope_node_flatten, List.append_assoc]

/-- Left rotation preserves the flattened content. -/
theorem rope_node_flatten_rotate_left (n : RNode) :
    rope_node_flatten (rope_node_rotate_left n) = rope_node_flatten n := by
  cases n with
  | null => rfl
  | leaf d => rfl
  | node l r =>
    cases r with
    | null => rfl
    | leaf d => rfl
    | node yl yr =>
      simp [rope_node_rotate_left, rope_node_flatten, List.append_assoc]

/-- Rebalancing preserves the flattened content. -/
theorem rope_node_flatten_balance (n : RNode) :
    rope_node_flatten (rope_node_balance n) = rope_node_flatten n := by
  cases n with
  | null => rfl
  | leaf d => simp [rope_node_balance, rope_node_balance_factor]
  | node l r =>
    simp only [rope_node_balance]
    split
    · rw [rope_node_flatten_rotate_right]
      simp only [rope_node_flatten]
      split
      · rw [rope_node_flatten_rotate_left]
      · rfl
    · split
      · rw [rope_node_flatten_rotate_left]
        simp only [rope_node_flatten]
        split
        · rw [rope_node_flatten_rotate_right]
        · rfl
      · rfl

/-- The null-child collapse concatenates the surviving content. -/
theorem rope_node_flatten_collapse (a b : RNode) :
    rope_node_flatten (rope_node_collapse a b) =
      rope_node_flatten a ++ rope_node_flatten b := by
  cases a <;> cases b <;>
    simp [rope_node_collapse, rope_node_flatten_balance, rope_node_flatten]

/-- The bulk build of the null-node insert branch reproduces the input
string exactly. -/
theorem rope_node_insert_empty_flatten (str : List Nat) :
    rope_node_flatten (rope_node_insert_empty str) = str := by
  induction str using rope_node_insert_empty.induct with
  | case1 x h =>
    rw [rope_node_insert_empty]
    simp [h, rope_node_create_leaf, rope_node_flatten,
      List.take_of_length_le (le_trans h (le_refl _))]
  | case2 x h mid ih1 ih2 =>
    rw [rope_node_insert_empty, if_neg h]
    simp only [show mid = rope_node_split_mid x.length from rfl] at ih1 ih2
    simp only [rope_node_create_internal, rope_node_flatten, ih1, ih2,
      List.take_append_drop]

/-- `rope_node_delete` removes the slice `[pos, pos + len)` from the
flattened content (clamped to the end), for every tree and arguments. -/
theorem rope_node_delete_flatten (n : RNode) : ∀ pos len,
    rope_node_flatten (rope_node_delete n pos len) =
      (rope_node_flatten n).take pos ++ (rope_node_flatten n).drop (pos + len) := by
  induction n with
  | null =>
    intro pos len
    simp [rope_node_delete, rope_node_flatten]
  | leaf d =>
    intro pos len
    by_cases h0 : len = 0
    · subst h0
      simp [rope_node_delete, rope_node_flatten, List.take_append_drop]
    · simp only [rope_node_delete, if_neg h0]
      by_cases hp : d.length ≤ pos
      · rw [if_pos hp]
        simp only [rope_node_flatten]
        rw [List.take_of_length_le hp, List.drop_eq_nil_of_le (by omega),
          List.append_nil]
      · rw [if_neg hp]
        have hd : d.drop (pos + min len (d.length - pos)) = d.drop (pos + len) := by
          rcases Nat.le_total len (d.length - pos) with hle | hge
          · rw [Nat.min_eq_left hle]
          · rw [Nat.min_eq_right hge, List.drop_eq_nil_of_le (by omega),
              List.drop_eq_nil_of_le (by omega)]
        split
        · next hzero =>
            rw [hd] at hzero
            simp only [rope_node_flatten]
            exact (List.eq_nil_of_length_eq_zero hzero).symm
        · simp only [rope_node_flatten, hd]
  | node l r ihl ihr =>
    intro pos len
    by_cases h0 : len = 0
    · subst h0
      simp [rope_node_delete, rope_node_flatten, List.take_append_drop]
    · simp only [rope_node_delete, if_neg h0, rope_node_flatten,
        rope_node_get_weight_eq l]
      set fl := rope_node_flatten l with hfl
      set fr := rope_node_flatten r with hfr
      by_cases hpos : pos < fl.length
      · rw [if_pos hpos]
        by_cases hcont : min len (fl.length - pos) < len
        · rw [if_pos hcont]
          rw [rope_node_flatten_collapse, ihl, ihr]
          have h1 : min len (fl.length - pos) = fl.length - pos := by omega
          have h2 : (fl ++ fr).take pos = fl.take pos := by
            rw [List.take_append_eq_append_take,
              Nat.sub_eq_zero_of_le (le_of_lt hpos), List.take_zero,
              List.append_nil]
          have h3 : (fl ++ fr).drop (pos + len) = fr.drop (pos + len - fl.length) := by
            rw [List.drop_append_eq_append_drop,
              List.drop_eq_nil_of_le (by omega), List.nil_append]
          rw [h1, h2, h3,
            show fl.drop (pos + (fl.length - pos)) = [] from
              List.drop_eq_nil_of_le (by omega)]
          simp only [List.append_nil, List.take_zero, List.nil_append,
            Nat.zero_add]
          rw [show len - (fl.length - pos) = pos + len - fl.length by omega]
        · rw [if_neg hcont]
          rw [rope_node_flatten_collapse, ihl]
          have h1 : min len (fl.length - pos) = len := by omega
          have h2 : (fl ++ fr).take pos = fl.take pos := by
            rw [List.take_append_eq_append_take,
              Nat.sub_eq_zero_of_le (le_of_lt hpos), List.take_zero,
              List.append_nil]
          have h3 : (fl ++ fr).drop (pos + len) = fl.drop (pos + len) ++ fr := by
            rw [List.drop_append_eq_append_drop,
              Nat.sub_eq_zero_of_le (by omega), List.drop_zero]
          rw [h1, h2, h3, List.append_assoc]
      · rw [if_neg hpos]
        rw [rope_node_flatten_collapse, ihr]
        have h2 : (fl ++ fr).take pos = fl ++ fr.take (pos - fl.length) := by
          rw [List.take_append_eq_append_take, List.take_of_length_le (by omega)]
        have h3 : (fl ++ fr).drop (pos + len) = fr.drop (pos + len - fl.length) := by
          rw [List.drop_append_eq_append_drop,
            List.drop_eq_nil_of_le (by omega), List.nil_append]
        rw [h2, h3, show pos - fl.length + len = pos + len - fl.length by omega,
          List.append_assoc]

/-- `rope_node_copy` returns the slice of the flattened content starting at
`pos`, clipped to `len` bytes, for every tree and arguments. -/
theorem rope_node_copy_flatten (n : RNode) : ∀ pos len,
    rope_node_copy n pos len = ((rope_node_flatten n).drop pos).take len := by
  induction n with
  | null =>
    intro pos len
    simp [rope_node_copy, rope_node_flatten]
  | leaf d =>
    intro pos len
    by_cases h0 : len = 0
    · subst h0
      simp [rope_node_copy]
    · simp only [rope_node_copy, if_neg h0, rope_node_flatten]
      by_cases hp : d.length ≤ pos
      · rw [if_pos hp, List.drop_eq_nil_of_le hp, List.take_nil]
      · rw [if_neg hp]
        rcases Nat.le_total len (d.length - pos) with hle | hge
        · rw [Nat.min_eq_left hle]
        · rw [Nat.min_eq_right hge,
            List.take_of_length_le (by simp [List.length_drop]),
            List.take_of_length_le (by simp [List.length_drop]; omega)]
  | node l r ihl ihr =>
    intro pos len
    by_cases h0 : len = 0
    · subst h0
      simp [rope_node_copy]
    · simp only [rope_node_copy, if_neg h0, rope_node_flatten,
        rope_node_get_weight_eq l]
      set fl := rope_node_flatten l with hfl
      set fr := rope_node_flatten r with hfr
      have hdrop : (fl ++ fr).drop pos = fl.drop pos ++ fr.drop (pos - fl.length) := by
        rw [List.drop_append_eq_append_drop]
      by_cases hpos : pos < fl.length
      · rw [if_pos hpos, ihl]
        have hlen : ((fl.drop pos).take len).length = min len (fl.length - pos) := by
          simp [List.length_take, List.length_drop]
        rw [hlen]
        have hfr0 : fr.drop (pos - fl.length) = fr := by
          rw [Nat.sub_eq_zero_of_le (le_of_lt hpos), List.drop_zero]
        by_cases hcont : min len (fl.length - pos) < len
        · rw [if_pos hcont, ihr, hdrop, hfr0, List.drop_zero,
            List.take_append_eq_append_take, List.length_drop,
            show min len (fl.length - pos) = fl.length - pos by omega]
        · rw [if_neg hcont, hdrop, hfr0, List.take_append_eq_append_take,
            List.length_drop, show len - (fl.length - pos) = 0 by omega,
            List.take_zero, List.append_nil]
      · rw [if_neg hpos, ihr, hdrop,
          List.drop_eq_nil_of_le (by omega : fl.length ≤ pos), List.nil_append]

/-! ## Buffer-level lemmas -/

/-- `rope_copy` returns the clipped slice of the root's flattened content. -/
theorem rope_copy_flatten (r : Rope) (pos len : Nat) :
    rope_copy r pos len = ((rope_node_flatten r.root).drop pos).take len := by
  cases hr : r.root with
  | null => simp [rope_copy, hr, rope_node_flatten]
  | leaf d => simp [rope_copy, hr, rope_node_copy_flatten]
  | node l rr => simp [rope_copy, hr, rope_node_copy_flatten]

/-- When the cached total length matches the content, `rope_to_string`
returns exactly the flattened content. -/
theorem rope_to_string_flatten (r : Rope)
    (h : r.total_length = (rope_node_flatten r.root).length) :
    rope_to_string r = rope_node_flatten r.root := by
  rw [rope_to_string, rope_copy_flatten, List.drop_zero, h, List.take_length]

/-- `rope_delete` keeps the cached total length consistent with the content
(for any `pos` and `len`). -/
theorem rope_delete_total_length (r : Rope) (pos len : Nat)
    (h : r.total_length = (rope_node_flatten r.root).length) :
    (rope_delete r pos len).total_length =
      (rope_node_flatten (rope_delete r pos len).root).length := by
  by_cases h0 : len = 0
  · simp [rope_delete, h0, h]
  · simp only [rope_delete, if_neg h0]
    simp only [rope_node_delete_flatten, List.length_append, List.length_take,
      List.length_drop]
    omega

/-! ## Claim theorems: round-trip, delete, copy, charAt -/

/-- C4: for every byte string `s` (including `s` longer than one node's
capacity, which forces a multi-node tree), `toString(fromString(s)) = s`. -/
theorem c4_to_string_from_string (s : List Nat) :
    rope_to_string (rope_from_string s) = s := by
  by_cases h0 : s.length = 0
  · rw [List.eq_nil_of_length_eq_zero h0]
    rfl
  · by_cases h1 : s.length ≤ ROPE_NODE_CAPACITY
    · simp only [rope_from_string, if_neg h0, if_pos h1]
      rw [rope_to_string, rope_copy_flatten]
      simp only [rope_node_create_leaf, rope_node_flatten,
        List.take_of_length_le h1, List.drop_zero, List.take_length]
    · simp only [rope_from_string, if_neg h0, if_neg h1, rope_insert]
      rw [rope_to_string, rope_copy_flatten]
      simp only [rope_node_insert, rope_node_insert_empty_flatten,
        List.drop_zero, Nat.zero_add, List.take_length]

/-- C5: for a rope whose cached length matches its content and
`pos ∈ [0, length)`, `rope_delete` removes exactly
`min(len, length - pos)` bytes starting at `pos`: the content becomes the
old first `pos` bytes followed by the old bytes from
`pos + min(len, length - pos)` on, and the length shrinks by that amount. -/
theorem c5_delete_clamped (r : Rope) (pos len : Nat)
    (hwf : r.total_length = (rope_node_flatten r.root).length)
    (hpos : pos < rope_length r) :
    rope_to_string (rope_delete r pos len) =
      (rope_to_string r).take pos ++
        (rope_to_string r).drop (pos + min len (rope_length r - pos)) ∧
    rope_length (rope_delete r pos len) =
      rope_length r - min len (rope_length r - pos) := by
  have hts := rope_to_string_flatten r hwf
  have hts' := rope_to_string_flatten _ (rope_delete_total_length r pos len hwf)
  simp only [rope_length] at hpos ⊢
  constructor
  · rw [hts', hts]
    by_cases h0 : len = 0
    · subst h0
      simp [rope_delete, List.take_append_drop]
    · simp only [rope_delete, if_neg h0]
      rw [rope_node_delete_flatten]
      congr 1
      rw [hwf]
      rcases Nat.le_total len ((rope_node_flatten r.root).length - pos) with hle | hge
      · rw [Nat.min_eq_left hle]
      · rw [Nat.min_eq_right hge, List.drop_eq_nil_of_le (by omega),
          List.drop_eq_nil_of_le (by omega)]
  · by_cases h0 : len = 0
    · simp [rope_delete, h0]
    · simp only [rope_delete, if_neg h0]
      omega

/-- C8: for a rope whose cached length matches its content, `rope_copy`
writes exactly the clipped slice of the content starting at `pos` — so it
returns `min(len, length - pos)` bytes when `pos < length` and 0 bytes
otherwise, and never reads past the end. -/
theorem c8_copy_clipped (r : Rope) (pos len : Nat)
    (hwf : r.total_length = (rope_node_flatten r.root).length) :
    rope_copy r pos len = ((rope_to_string r).drop pos).take len ∧
    (rope_copy r pos len).length =
      (if pos < rope_length r then min len (rope_length r - pos) else 0) := by
  have hts := rope_to_string_flatten r hwf
  refine ⟨by rw [hts, rope_copy_flatten], ?_⟩
  rw [rope_copy_flatten]
  simp only [List.length_take, List.length_drop, rope_length, hwf]
  split
  · rfl
  · next hge => omega

/-- C9: for a rope whose cached length matches its content and any index
`i < length`, `rope_char_at r i` is the `i`-th byte of `rope_to_string r`. -/
theorem c9_char_at_agrees (r : Rope) (i : Nat)
    (hwf : r.total_length = (rope_node_flatten r.root).length)
    (hi : i < rope_length r) :
    rope_char_at r i = (rope_to_string r).getD i 0 := by
  have hts := rope_to_string_flatten r hwf
  have hi' : i < (rope_node_flatten r.root).length := by
    simp only [rope_length, hwf] at hi
    exact hi
  have hcopy : rope_copy r i 1 = [(rope_node_flatten r.root).getD i 0] := by
    rw [rope_copy_flatten, List.drop_eq_getElem_cons hi']
    simp only [List.take_succ_cons, List.take_zero]
    rw [List.getD_eq_getElem _ _ hi']
  rw [rope_char_at, hcopy, hts]

/-- C10: for a rope whose cached length matches its content and any position
at or past the end (including the empty buffer), `rope_char_at` copies
nothing and returns the NUL byte 0. -/
theorem c10_char_at_out_of_range (r : Rope) (pos : Nat)
    (hwf : r.total_length = (rope_node_flatten r.root).length)
    (hge : rope_length r ≤ pos) :
    rope_char_at r pos = 0 ∧ rope_copy r pos 1 = [] := by
  have hcopy : rope_copy r pos 1 = [] := by
    rw [rope_copy_flatten,
      List.drop_eq_nil_of_le (by simp only [rope_length, hwf] at hge; exact hge),
      List.take_nil]
  exact ⟨by rw [rope_char_at, hcopy], hcopy⟩

/-! ## Routing-rule lemmas (claim C7) -/

/-- The spec-routed delete is the identity for `len = 0`. -/
theorem rope_node_delete_route_zero (n : RNode) (pos : Nat) :
    rope_node_delete_route n pos 0 = n := by
  cases n <;> simp [rope_node_delete_route]

/-- The code's delete (routing left on `pos < weight`) computes exactly the
spec-routed delete (routing left on `pos ≤ weight`): at `pos = weight` the
spec route clips zero bytes from the left subtree and continues at offset 0
of the right subtree, which is what the code's right routing does. -/
theorem rope_node_delete_eq_route (n : RNode) : ∀ pos len,
    rope_node_delete n pos len = rope_node_delete_route n pos len := by
  induction n with
  | null => intro pos len; rfl
  | leaf d =>
    intro pos len
    simp [rope_node_delete, rope_node_delete_route]
  | node l r ihl ihr =>
    intro pos len
    by_cases h0 : len = 0
    · subst h0
      simp [rope_node_delete, rope_node_delete_route]
    · simp only [rope_node_delete, rope_node_delete_route, if_neg h0]
      by_cases hlt : pos < rope_node_get_weight l
      · rw [if_pos hlt, if_pos (le_of_lt hlt)]
        simp only [ihl, ihr]
      · rw [if_neg hlt]
        by_cases heq : pos = rope_node_get_weight l
        · subst heq
          rw [if_pos (le_refl _)]
          simp only [Nat.sub_self, Nat.min_zero, rope_node_delete_route_zero,
            Nat.sub_zero, if_pos (Nat.pos_of_ne_zero h0), ihr]
        · rw [if_neg (by omega), ihr]

/-- The spec-routed copy also returns the clipped slice of the flattened
content, for every tree and arguments. -/
theorem rope_node_copy_route_flatten (n : RNode) : ∀ pos len,
    rope_node_copy_route n pos len = ((rope_node_flatten n).drop pos).take len := by
  induction n with
  | null =>
    intro pos len
    simp [rope_node_copy_route, rope_node_flatten]
  | leaf d =>
    intro pos len
    by_cases h0 : len = 0
    · subst h0
      simp [rope_node_copy_route]
    · simp only [rope_node_copy_route, if_neg h0, rope_node_flatten]
      by_cases hp : d.length ≤ pos
      · rw [if_pos hp, List.drop_eq_nil_of_le hp, List.take_nil]
      · rw [if_neg hp]
        rcases Nat.le_total len (d.length - pos) with hle | hge
        · rw [Nat.min_eq_left hle]
        · rw [Nat.min_eq_right hge,
            List.take_of_length_le (by simp [List.length_drop]),
            List.take_of_length_le (by simp [List.length_drop]; omega)]
  | node l r ihl ihr =>
    intro pos len
    by_cases h0 : len = 0
    · subst h0
      simp [rope_node_copy_route]
    · simp only [rope_node_copy_route, if_neg h0, rope_node_flatten,
        rope_node_get_weight_eq l]
      set fl := rope_node_flatten l with hfl
      set fr := rope_node_flatten r with hfr
      have hdrop : (fl ++ fr).drop pos = fl.drop pos ++ fr.drop (pos - fl.length) := by
        rw [List.drop_append_eq_append_drop]
      by_cases hpos : pos ≤ fl.length
      · rw [if_pos hpos, ihl]
        have hlen : ((fl.drop pos).take len).length = min len (fl.length - pos) := by
          simp [List.length_take, List.length_drop]
        rw [hlen]
        have hfr0 : fr.drop (pos - fl.length) = fr := by
          rw [Nat.sub_eq_zero_of_le hpos, List.drop_zero]
        by_cases hcont : min len (fl.length - pos) < len
        · rw [if_pos hcont, ihr, hdrop, hfr0, List.drop_zero,
            List.take_append_eq_append_take, List.length_drop,
            show min len (fl.length - pos) = fl.length - pos by omega]
        · rw [if_neg hcont, hdrop, hfr0, List.take_append_eq_append_take,
            List.length_drop, show len - (fl.length - pos) = 0 by omega,
            List.take_zero, List.append_nil]
      · rw [if_neg hpos, ihr, hdrop,
          List.drop_eq_nil_of_le (by omega : fl.length ≤ pos), List.nil_append]

/-- C7: insert, delete and copy all follow the spec's single routing rule
`pos ≤ weight(left) → recurse left, else recurse right at pos − weight`:
the code's delete and copy (which compare `pos < weight`) are extensionally
equal to the `≤`-routed versions, and insert's two internal-node branches are
literally that rule. -/
theorem c7_routing_rule :
    (∀ (n : RNode) (pos len : Nat),
      rope_node_delete n pos len = rope_node_delete_route n pos len) ∧
    (∀ (n : RNode) (pos len : Nat),
      rope_node_copy n pos len = rope_node_copy_route n pos len) ∧
    (∀ (l r : RNode) (pos : Nat) (str : List Nat),
      pos ≤ rope_node_get_weight l →
        rope_node_insert (.node l r) pos str =
          rope_node_balance (.node (rope_node_insert l pos str) r)) ∧
    (∀ (l r : RNode) (pos : Nat) (str : List Nat),
      rope_node_get_weight l < pos →
        rope_node_insert (.node l r) pos str =
          rope_node_balance
            (.node l (rope_node_insert r (pos - rope_node_get_weight l) str))) := by
  refine ⟨rope_node_delete_eq_route, ?_, ?_, ?_⟩
  · intro n pos len
    rw [rope_node_copy_flatten, rope_node_copy_route_flatten]
  · intro l r pos str h
    simp [rope_node_insert, if_pos h]
  · intro l r pos str h
    simp [rope_node_insert, if_neg (Nat.not_le_of_lt h)]

/-! ## Null-child invariant (claim C6) -/

/-- Rotations do not change whether a node is null. -/
theorem rope_node_rotate_right_isNull (n : RNode) :
    (rope_node_rotate_right n).isNull = n.isNull := by
  cases n with
  | null => rfl
  | leaf d => rfl
  | node l r => cases l <;> rfl

/-- Rotations do not change whether a node is null. -/
theorem rope_node_rotate_left_isNull (n : RNode) :
    (rope_node_rotate_left n).isNull = n.isNull := by
  cases n with
  | null => rfl
  | leaf d => rfl
  | node l r => cases r <;> rfl

/-- Right rotation preserves the no-null-child invariant. -/
theorem rope_node_no_null_child_rotate_right (n : RNode)
    (h : rope_node_no_null_child n = true) :
    rope_node_no_null_child (rope_node_rotate_right n) = true := by
  cases n with
  | null => exact h
  | leaf d => exact h
  | node l r =>
    cases l with
    | null => exact h
    | leaf d => exact h
    | node xl xr =>
      simp only [rope_node_rotate_right, rope_node_no_null_child,
        RNode.isNull, Bool.and_eq_true, Bool.not_eq_true'] at h ⊢
      tauto

/-- Left rotation preserves the no-null-child invariant. -/
theorem rope_node_no_null_child_rotate_left (n : RNode)
    (h : rope_node_no_null_child n = true) :
    rope_node_no_null_child (rope_node_rotate_left n) = true := by
  cases n with
  | null => exact h
  | leaf d => exact h
  | node l r =>
    cases r with
    | null => exact h
    | leaf d => exact h
    | node yl yr =>
      simp only [rope_node_rotate_left, rope_node_no_null_child,
        RNode.isNull, Bool.and_eq_true, Bool.not_eq_true'] at h ⊢
      tauto

/-- Rebalancing does not change whether a node is null. -/
theorem rope_node_balance_isNull (n : RNode) :
    (rope_node_balance n).isNull = n.isNull := by
  cases n with
  | null => rfl
  | leaf d => simp [rope_node_balance, rope_node_balance_factor]
  | node l r =>
    simp only [rope_node_balance]
    split
    · rw [rope_node_rotate_right_isNull]
      rfl
    · split
      · rw [rope_node_rotate_left_isNull]
        rfl
      · rfl

/-- Rebalancing preserves the no-null-child invariant. -/
theorem rope_node_no_null_child_balance (n : RNode)
    (h : rope_node_no_null_child n = true) :
    rope_node_no_null_child (rope_node_balance n) = true := by
  cases n with
  | null => exact h
  | leaf d => simpa [rope_node_balance, rope_node_balance_factor] using h
  | node l r =>
    have hc : l.isNull = false ∧ r.isNull = false ∧
        rope_node_no_null_child l = true ∧ rope_node_no_null_child r = true := by
      simp only [rope_node_no_null_child, Bool.and_eq_true,
        Bool.not_eq_true'] at h
      tauto
    simp only [rope_node_balance]
    split
    · apply rope_node_no_null_child_rotate_right
      have h1 : rope_node_no_null_child
          (if rope_node_balance_factor l < 0
           then rope_node_rotate_left l else l) = true := by
        split
        · exact rope_node_no_null_child_rotate_left l hc.2.2.1
        · exact hc.2.2.1
      have h2 : (if rope_node_balance_factor l < 0
          then rope_node_rotate_left l else l).isNull = false := by
        split
        · rw [rope_node_rotate_left_isNull]
          exact hc.1
        · exact hc.1
      simp only [rope_node_no_null_child, Bool.and_eq_true, Bool.not_eq_true']
      tauto
    · split
      · apply rope_node_no_null_child_rotate_left
        have h1 : rope_node_no_null_child
            (if 0 < rope_node_balance_factor r
             then rope_node_rotate_right r else r) = true := by
          split
          · exact rope_node_no_null_child_rotate_right r hc.2.2.2
          · exact hc.2.2.2
        have h2 : (if 0 < rope_node_balance_factor r
            then rope_node_rotate_right r else r).isNull = false := by
          split
          · rw [rope_node_rotate_right_isNull]
            exact hc.2.1
          · exact hc.2.1
        simp only [rope_node_no_null_child, Bool.and_eq_true, Bool.not_eq_true']
        tauto
      · exact h

/-- The bulk build never returns a null node. -/
theorem rope_node_insert_empty_isNull (str : List Nat) :
    (rope_node_insert_empty str).isNull = false := by
  rw [rope_node_insert_empty]
  split
  · rfl
  · rfl

/-- The bulk build of the null-node insert branch has no null children. -/
theorem rope_node_insert_empty_no_null (str : List Nat) :
    rope_node_no_null_child (rope_node_insert_empty str) = true := by
  induction str using rope_node_insert_empty.induct with
  | case1 x h =>
    rw [rope_node_insert_empty, if_pos h]
    rfl
  | case2 x h mid ih1 ih2 =>
    rw [rope_node_insert_empty, if_neg h]
    simp only [show mid = rope_node_split_mid x.length from rfl] at ih1 ih2
    simp only [rope_node_create_internal, rope_node_no_null_child,
      Bool.and_eq_true, Bool.not_eq_true', rope_node_insert_empty_isNull,
      ih1, ih2, and_self]

/-- Insertion never returns a null node. -/
theorem rope_node_insert_isNull (n : RNode) (pos : Nat) (str : List Nat) :
    (rope_node_insert n pos str).isNull = false := by
  cases n with
  | null => exact rope_node_insert_empty_isNull str
  | leaf d =>
    simp only [rope_node_insert]
    split
    · rfl
    · rw [rope_node_balance_isNull]
      rfl
  | node l r =>
    simp only [rope_node_insert]
    split
    · rw [rope_node_balance_isNull]
      rfl
    · rw [rope_node_balance_isNull]
      rfl

/-- Insertion preserves the no-null-child invariant. -/
theorem rope_node_insert_no_null (n : RNode) : ∀ (pos : Nat) (str : List Nat),
    rope_node_no_null_child n = true →
    rope_node_no_null_child (rope_node_insert n pos str) = true := by
  induction n with
  | null =>
    intro pos str _
    exact rope_node_insert_empty_no_null str
  | leaf d =>
    intro pos str _
    simp only [rope_node_insert]
    split
    · rfl
    · apply rope_node_no_null_child_balance
      rfl
  | node l r ihl ihr =>
    intro pos str h
    have hc : l.isNull = false ∧ r.isNull = false ∧
        rope_node_no_null_child l = true ∧ rope_node_no_null_child r = true := by
      simp only [rope_node_no_null_child, Bool.and_eq_true,
        Bool.not_eq_true'] at h
      tauto
    simp only [rope_node_insert]
    split
    · apply rope_node_no_null_child_balance
      have h1 := ihl pos str hc.2.2.1
      simp only [rope_node_no_null_child, Bool.and_eq_true, Bool.not_eq_true',
        rope_node_insert_isNull]
      tauto
    · apply rope_node_no_null_child_balance
      have h1 := ihr (pos - rope_node_get_weight l) str hc.2.2.2
      simp only [rope_node_no_null_child, Bool.and_eq_true, Bool.not_eq_true',
        rope_node_insert_isNull]
      tauto

/-- The null-child collapse preserves the no-null-child invariant. -/
theorem rope_node_collapse_no_null (a b : RNode)
    (ha : rope_node_no_null_child a = true)
    (hb : rope_node_no_null_child b = true) :
    rope_node_no_null_child (rope_node_collapse a b) = true := by
  cases a <;> cases b <;>
    simp only [rope_node_collapse] <;>
    first
      | assumption
      | rfl
      | (apply rope_node_no_null_child_balance
         simp only [rope_node_no_null_child, Bool.and_eq_true,
           Bool.not_eq_true', RNode.isNull] at ha hb ⊢
         tauto)

/-- Deletion preserves the no-null-child invariant. -/
theorem rope_node_delete_no_null (n : RNode) : ∀ (pos len : Nat),
    rope_node_no_null_child n = true →
    rope_node_no_null_child (rope_node_delete n pos len) = true := by
  induction n with
  | null =>
    intro pos len h
    exact h
  | leaf d =>
    intro pos len _
    simp only [rope_node_delete]
    split
    · rfl
    · split
      · rfl
      · split
        · rfl
        · rfl
  | node l r ihl ihr =>
    intro pos len h
    have hc : rope_node_no_null_child l = true ∧
        rope_node_no_null_child r = true := by
      simp only [rope_node_no_null_child, Bool.and_eq_true,
        Bool.not_eq_true'] at h
      tauto
    simp only [rope_node_delete]
    split
    · exact h
    · split
      · apply rope_node_collapse_no_null
        · exact ihl _ _ hc.1
        · split
          · exact ihr _ _ hc.2
          · exact hc.2
      · exact rope_node_collapse_no_null _ _ hc.1 (ihr _ _ hc.2)

/-- C6 (amended): every buffer state reachable through the public interface
has no internal node with a null child — deletion prunes emptied leaves and
collapses their parents onto the surviving sibling.  (Zero-length leaves can
however appear: see the counterexample theorem.) -/
theorem c6_no_null_child_reachable (r : Rope) (h : Reachable r) :
    rope_node_no_null_child r.root = true := by
  induction h with
  | init => rfl
  | insert s pos str hr hpos ih =>
    by_cases h0 : str.length = 0
    · simpa [rope_insert, h0] using ih
    · simp only [rope_insert, if_neg h0]
      exact rope_node_insert_no_null s.root pos str ih
  | delete s pos len hr hpos ih =>
    by_cases h0 : len = 0
    · simpa [rope_delete, h0] using ih
    · simp only [rope_delete, if_neg h0]
      exact rope_node_delete_no_null s.root pos len ih
  | from_string str =>
    by_cases h0 : str.length = 0
    · simp [rope_from_string, h0, rope_node_no_null_child]
    · by_cases h1 : str.length ≤ ROPE_NODE_CAPACITY
      · simp [rope_from_string, h0, h1, rope_node_create_leaf,
          rope_node_no_null_child]
      · simp only [rope_from_string, if_neg h0, if_neg h1, rope_insert,
          if_neg h0]
        exact rope_node_insert_no_null .null 0 str rfl
  | free s hr ih => rfl

/-- Witness for the amended C6 theorem at the initial buffer. -/
theorem c6_no_null_child_witness : rope_node_no_null_child rope_init.root = true :=
  c6_no_null_child_reachable rope_init Reachable.init

set_option maxRecDepth 100000 in
/-- C6 counterexample: inserting one byte at position 0 (a valid position)
into a buffer whose single leaf is full splits the leaf at offset 0 and
creates a zero-length left leaf, which persists — the claim that no leaf of
length zero survives a mutation is false. -/
theorem c6_empty_leaf_counterexample :
    rope_node_no_empty_leaf
      (rope_insert (rope_from_string (List.replicate 512 3)) 0 [4]).root = false := by
  decide

set_option maxRecDepth 1000000 in
set_option maxHeartbeats 4000000 in
/-- C1: the buffer reaches an AVL-violating state through public operations
only.  `rope_c1_buffer` (8192 bytes, built by `rope_from_string` plus 15
valid appends) is balanced; after the single valid delete of 3072 bytes at
position 0 some internal node has `|height(left) − height(right)| = 2`: one
bottom-up rebalancing pass cannot repair a range delete that shortens the
left subtree by several levels. -/
theorem c1_avl_violation :
    rope_node_avl_ok rope_c1_buffer.root = true ∧
    rope_length rope_c1_buffer = 8192 ∧
    rope_node_avl_ok (rope_delete rope_c1_buffer 0 3072).root = false := by
  refine ⟨by decide, by decide, by decide⟩

set_option maxRecDepth 100000 in
/-- C2: after valid public operations (`fromString` of one byte, then an
insert of 600 bytes at position 1), the cached `total_length` is 601 while
the leaf lengths reachable from the root sum to 513 — the invariant is
violated because the leaf-split path truncates the inserted string to
`ROPE_NODE_CAPACITY` bytes. -/
theorem c2_total_length_mismatch :
    rope_length (rope_insert (rope_from_string [1]) 1 (List.replicate 600 2)) = 601 ∧
    rope_node_get_weight
      (rope_insert (rope_from_string [1]) 1 (List.replicate 600 2)).root = 513 := by
  refine ⟨by decide, by decide⟩

set_option maxRecDepth 100000 in
/-- C3: inserting 600 bytes at the end of the one-byte buffer `[1]` keeps
only the first 512 inserted bytes (the split path truncates `str` at
`ROPE_NODE_CAPACITY`), so the content is not the claimed
`old.take pos ++ s ++ old.drop pos` even though the cached length grows by
the full 600. -/
theorem c3_insert_truncates :
    rope_to_string (rope_insert (rope_from_string [1]) 1 (List.replicate 600 2)) =
      1 :: List.replicate 512 2 ∧
    rope_to_string (rope_insert (rope_from_string [1]) 1 (List.replicate 600 2)) ≠
      1 :: List.replicate 600 2 ∧
    rope_length (rope_insert (rope_from_string [1]) 1 (List.replicate 600 2)) = 601 := by
  refine ⟨by decide, by decide, by decide⟩

/-! ## Witnesses -/

/-- Witness for C5 on a concrete 7-byte buffer, deleting 3 bytes at 2. -/
theorem c5_delete_clamped_witness :
    rope_to_string (rope_delete (rope_from_string [1,2,3,4,5,6,7]) 2 3) =
      (rope_to_string (rope_from_string [1,2,3,4,5,6,7])).take 2 ++
        (rope_to_string (rope_from_string [1,2,3,4,5,6,7])).drop
          (2 + min 3 (rope_length (rope_from_string [1,2,3,4,5,6,7]) - 2)) ∧
    rope_length (rope_delete (rope_from_string [1,2,3,4,5,6,7]) 2 3) =
      rope_length (rope_from_string [1,2,3,4,5,6,7]) -
        min 3 (rope_length (rope_from_string [1,2,3,4,5,6,7]) - 2) :=
  c5_delete_clamped (rope_from_string [1,2,3,4,5,6,7]) 2 3 (by decide) (by decide)

/-- Witness for C7 at a two-leaf tree, at the boundary position
`pos = weight(left)` for all three operations. -/
theorem c7_routing_rule_witness :
    rope_node_delete (.node (.leaf [1,2]) (.leaf [3,4])) 2 1 =
      rope_node_delete_route (.node (.leaf [1,2]) (.leaf [3,4])) 2 1 ∧
    rope_node_copy (.node (.leaf [1,2]) (.leaf [3,4])) 2 2 =
      rope_node_copy_route (.node (.leaf [1,2]) (.leaf [3,4])) 2 2 ∧
    rope_node_insert (.node (.leaf [1,2]) (.leaf [3,4])) 2 [9] =
      rope_node_balance (.node (rope_node_insert (.leaf [1,2]) 2 [9]) (.leaf [3,4])) ∧
    rope_node_insert (.node (.leaf [1,2]) (.leaf [3,4])) 3 [9] =
      rope_node_balance (.node (.leaf [1,2])
        (rope_node_insert (.leaf [3,4]) (3 - rope_node_get_weight (.leaf [1,2])) [9])) :=
  ⟨c7_routing_rule.1 (.node (.leaf [1,2]) (.leaf [3,4])) 2 1,
   c7_routing_rule.2.1 (.node (.leaf [1,2]) (.leaf [3,4])) 2 2,
   c7_routing_rule.2.2.1 (.leaf [1,2]) (.leaf [3,4]) 2 [9] (by decide),
   c7_routing_rule.2.2.2 (.leaf [1,2]) (.leaf [3,4]) 3 [9] (by decide)⟩

/-- Witness for C8 on a concrete 3-byte buffer with an over-long request. -/
theorem c8_copy_clipped_witness :
    rope_copy (rope_from_string [5,6,7]) 1 5 =
      ((rope_to_string (rope_from_string [5,6,7])).drop 1).take 5 ∧
    (rope_copy (rope_from_string [5,6,7]) 1 5).length =
      (if 1 < rope_length (rope_from_string [5,6,7])
       then min 5 (rope_length (rope_from_string [5,6,7]) - 1) else 0) :=
  c8_copy_clipped (rope_from_string [5,6,7]) 1 5 (by decide)

/-- Witness for C9 on a concrete 3-byte buffer at index 2. -/
theorem c9_char_at_agrees_witness :
    rope_char_at (rope_from_string [5,6,7]) 2 =
      (rope_to_string (rope_from_string [5,6,7])).getD 2 0 :=
  c9_char_at_agrees (rope_from_string [5,6,7]) 2 (by decide) (by decide)

/-- Witness for C10 on the empty buffer at position 0. -/
theorem c10_char_at_out_of_range_witness :
    rope_char_at rope_init 0 = 0 ∧ rope_copy rope_init 0 1 = [] :=
  c10_char_at_out_of_range rope_init 0 (by decide) (by decide)
